import Mathlib

/-!
# s3s: bucket listing, paginated key listing and S3 Select consumption

A shallow embedding of `s3s.go` (package `s3s`) and the properties of its
listing loops, its select-stream consumer and its compression inference.

Conventions of the embedding

* A Go `string` / `[]byte` is a list of bytes (`GoString`).
* A Go `*string` is an `Option GoString`; `none` is the nil pointer and
  dereferencing it is a run-time panic.
* A Go `[]string` is a `List GoString`; the nil slice is the empty list.
* A Go `error` is an `Option GoError`; `none` is the nil error.
* A call either returns its Go result tuple or panics (`Outcome`).
* The AWS SDK is an external collaborator.  A paginator is represented by the
  sequence of answers its `NextPage` calls give while `HasMorePages` holds, an
  event stream by the events its channel delivers before closing together
  with the value `Err()` reports afterwards.
-/

namespace S3s

/-! ## Go values -/

/-- A Go string: an immutable sequence of bytes. -/
abbrev GoString := List UInt8

/-- The bytes of a string literal, i.e. its UTF-8 encoding. -/
def lit (s : String) : GoString := s.toUTF8.data.toList

/-- A non-nil Go `error` value. -/
structure GoError where
  msg : String
  deriving DecidableEq

/-- How a Go call ends: it returns its result, or it panics. -/
inductive Outcome (α : Type) where
  | returned (a : α)
  | panicked
  deriving DecidableEq

/-- Go `make([]string, n)`: a slice of `n` empty strings; panics for a negative length. -/
def make (n : Int) : Option (List GoString) :=
  if n < 0 then none else some (List.replicate n.toNat [])

/-- Go indexed store `s[i] = v`: panics (here `none`) when `i` is out of range. -/
def storeAt (s : List GoString) (i : Nat) (v : GoString) : Option (List GoString) :=
  if i < s.length then some (s.set i v) else none

/-- The loop `for i := range src { dst[i] = *src[i].field }`, started at index `i`:
every iteration dereferences a pointer and stores at index `i`; `none` is a panic. -/
def fillFrom : List (Option GoString) → Nat → List GoString → Option (List GoString)
  | [], _, dst => some dst
  | none :: _, _, _ => none
  | some v :: rest, i, dst =>
    match storeAt dst i v with
    | none => none
    | some dst1 => fillFrom rest (i + 1) dst1

/-! ## `strings.HasSuffix` and `suggestCompressionType` -/

/-- Go `strings.HasSuffix`:
`len(s) >= len(suffix) && s[len(s)-len(suffix):] == suffix`. -/
def strings.HasSuffix (s suffix : GoString) : Bool :=
  decide (s.length ≥ suffix.length) && (s.drop (s.length - suffix.length) == suffix)

/-- The SDK enumeration `types.CompressionType`. -/
inductive CompressionType where
  | CompressionTypeNone
  | CompressionTypeGzip
  | CompressionTypeBzip2
  deriving DecidableEq

open CompressionType

/-- The function `suggestCompressionType` of `s3s.go`. -/
def suggestCompressionType (key : GoString) : CompressionType :=
  if strings.HasSuffix key (lit ".gz") then CompressionTypeGzip
  else if strings.HasSuffix key (lit ".bz2") then CompressionTypeBzip2
  else CompressionTypeNone

/-! ## Bucket listing -/

/-- The SDK type `types.Bucket`; `Name` is a `*string`. -/
structure Bucket where
  Name : Option GoString
  deriving DecidableEq

/-- The SDK type `s3.ListBucketsOutput`. -/
structure ListBucketsOutput where
  Buckets : List Bucket
  deriving DecidableEq

/-- The function `GetS3Bucket` of `s3s.go`; `resp` is what `app.s3client.ListBuckets` answers. -/
def GetS3Bucket (resp : Except GoError ListBucketsOutput) :
    Outcome (List GoString × Option GoError) :=
  match resp with
  | .error err => .returned ([], some err)
  | .ok output =>
    match make (output.Buckets.length : Int) with
    | none => .panicked
    | some s3keys =>
      match fillFrom (output.Buckets.map (fun content => content.Name)) 0 s3keys with
      | none => .panicked
      | some s3keys1 => .returned (s3keys1, none)

/-! ## Paginated listing -/

/-- The SDK type `types.CommonPrefix`; `Prefix` is a `*string`. -/
structure CommonPrefix where
  Prefix : Option GoString
  deriving DecidableEq

/-- The SDK type `types.Object`; `Key` is a `*string`. -/
structure Object where
  Key : Option GoString
  deriving DecidableEq

/-- The SDK type `s3.ListObjectsV2Output` (the fields the listers read);
`KeyCount` is an `int32`. -/
structure ListObjectsV2Output where
  CommonPrefixes : List CommonPrefix
  Contents : List Object
  KeyCount : Int
  deriving DecidableEq

/-- What one listing call did: its result (the Go pair `([]string, error)`) or a
panic, and the number of `NextPage` calls it made. -/
structure Listing where
  result : Outcome (List GoString × Option GoError)
  fetched : Nat
  deriving DecidableEq

/-- The batch `pageKeys` that `GetS3Dir` builds from one page
(`make([]string, len(output.CommonPrefixes))` and the fill loop). -/
def GetS3Dir.pageKeys (output : ListObjectsV2Output) : Option (List GoString) :=
  match make (output.CommonPrefixes.length : Int) with
  | none => none
  | some pageKeys => fillFrom (output.CommonPrefixes.map (fun c => c.Prefix)) 0 pageKeys

/-- The loop `for pagenator.HasMorePages() { ... }` of `GetS3Dir`: the first argument
is what the remaining `NextPage` calls answer, `n` counts the calls made so far and
`s3Keys` is the accumulator. -/
def GetS3Dir.loop : List (Except GoError ListObjectsV2Output) → Nat → List GoString → Listing
  | [], n, s3Keys => ⟨.returned (s3Keys, none), n⟩
  | .error err :: _, n, _ => ⟨.returned ([], some err), n + 1⟩
  | .ok output :: more, n, s3Keys =>
    match GetS3Dir.pageKeys output with
    | none => ⟨.panicked, n + 1⟩
    | some pageKeys => GetS3Dir.loop more (n + 1) (s3Keys ++ pageKeys)

/-- The function `GetS3Dir` of `s3s.go`, run against a paginator that answers `pagenator`. -/
def GetS3Dir (pagenator : List (Except GoError ListObjectsV2Output)) : Listing :=
  GetS3Dir.loop pagenator 0 []

/-- The batch `pageKeys` that `GetS3Keys` builds from one page
(`make([]string, output.KeyCount)` and the fill loop over `output.Contents`). -/
def GetS3Keys.pageKeys (output : ListObjectsV2Output) : Option (List GoString) :=
  match make output.KeyCount with
  | none => none
  | some pageKeys => fillFrom (output.Contents.map (fun o => o.Key)) 0 pageKeys

/-- The loop `for pagenator.HasMorePages() { ... }` of `GetS3Keys`. -/
def GetS3Keys.loop : List (Except GoError ListObjectsV2Output) → Nat → List GoString → Listing
  | [], n, s3Keys => ⟨.returned (s3Keys, none), n⟩
  | .error err :: _, n, _ => ⟨.returned ([], some err), n + 1⟩
  | .ok output :: more, n, s3Keys =>
    match GetS3Keys.pageKeys output with
    | none => ⟨.panicked, n + 1⟩
    | some pageKeys => GetS3Keys.loop more (n + 1) (s3Keys ++ pageKeys)

/-- The function `GetS3Keys` of `s3s.go`, run against a paginator that answers `pagenator`. -/
def GetS3Keys (pagenator : List (Except GoError ListObjectsV2Output)) : Listing :=
  GetS3Keys.loop pagenator 0 []

/-- The `Prefix` strings carried by a page, in page order. -/
def prefixesOf (output : ListObjectsV2Output) : List GoString :=
  output.CommonPrefixes.filterMap (fun c => c.Prefix)

/-- The `Key` strings carried by a page, in page order. -/
def keysOf (output : ListObjectsV2Output) : List GoString :=
  output.Contents.filterMap (fun o => o.Key)

/-- Every entry of `CommonPrefixes` carries a `Prefix`. -/
def prefixesPresent (output : ListObjectsV2Output) : Prop :=
  ∀ c ∈ output.CommonPrefixes, c.Prefix ≠ none

/-- Every entry of `Contents` carries a `Key`. -/
def keysPresent (output : ListObjectsV2Output) : Prop :=
  ∀ o ∈ output.Contents, o.Key ≠ none

instance (output : ListObjectsV2Output) : Decidable (prefixesPresent output) := by
  unfold prefixesPresent; infer_instance

instance (output : ListObjectsV2Output) : Decidable (keysPresent output) := by
  unfold keysPresent; infer_instance

/-- The batch a page contributes to `GetS3Keys` when `KeyCount` is at least the
number of `Contents` entries: its keys, then the slots the fill loop never wrote. -/
def paddedKeysOf (output : ListObjectsV2Output) : List GoString :=
  keysOf output ++ List.replicate (output.KeyCount.toNat - output.Contents.length) []

/-! ## S3 Select -/

/-- The SDK enumeration `types.ExpressionType`. -/
inductive ExpressionType where
  | ExpressionTypeSql
  deriving DecidableEq

/-- The SDK enumeration `types.JSONType`. -/
inductive JSONType where
  | JSONTypeDocument
  | JSONTypeLines
  deriving DecidableEq

/-- The SDK type `types.RequestProgress`; the zero value of `Enabled` is `false`. -/
structure RequestProgress where
  Enabled : Bool := false
  deriving DecidableEq

/-- The SDK type `types.JSONInput`. -/
structure JSONInput where
  Type_ : JSONType
  deriving DecidableEq

/-- The SDK type `types.InputSerialization` (the fields `S3Select` sets). -/
structure InputSerialization where
  CompressionType : CompressionType
  JSON : Option JSONInput
  deriving DecidableEq

/-- The SDK type `types.JSONOutput`. -/
structure JSONOutput where
  RecordDelimiter : Option GoString := none
  deriving DecidableEq

/-- The SDK type `types.OutputSerialization` (the field `S3Select` sets). -/
structure OutputSerialization where
  JSON : Option JSONOutput
  deriving DecidableEq

/-- The SDK type `s3.SelectObjectContentInput` (the fields `S3Select` sets). -/
structure SelectObjectContentInput where
  Bucket : Option GoString
  Key : Option GoString
  ExpressionType : ExpressionType
  Expression : Option GoString
  RequestProgress : Option RequestProgress
  InputSerialization : Option InputSerialization
  OutputSerialization : Option OutputSerialization
  deriving DecidableEq

/-- The SDK union `types.SelectObjectContentEventStream`: one event of a select
stream; only `Records` carries a payload the consumer reads. -/
inductive Event where
  | Records (Payload : GoString)
  | Progress
  | Stats
  | Cont
  | End
  deriving DecidableEq

/-- An acquired select stream: the events its channel delivers before it closes and
the value `Err()` reports after that. -/
structure SelectObjectContentEventStream where
  Events : List Event
  Err : Option GoError
  deriving DecidableEq

/-- What `S3Select` acts on: the bytes written to standard output, the number of
`Close` calls made on the stream, and the requests submitted to the client. -/
structure World where
  stdout : GoString
  closeCalls : Nat
  submitted : List SelectObjectContentInput
  deriving DecidableEq

/-- The request `params` that `S3Select` builds. -/
def S3Select.params (bucket key query : GoString) : SelectObjectContentInput :=
  let compressionType := suggestCompressionType key
  { Bucket := some bucket
    Key := some key
    ExpressionType := ExpressionType.ExpressionTypeSql
    Expression := some query
    RequestProgress := some {}
    InputSerialization := some
      { CompressionType := compressionType
        JSON := some { Type_ := JSONType.JSONTypeLines } }
    OutputSerialization := some { JSON := some {} } }

/-- Go `fmt.Print(value)` for one string operand: the bytes go to standard output. -/
def fmtPrint (w : World) (value : GoString) : World :=
  { w with stdout := w.stdout ++ value }

/-- The loop `for event := range stream.Events() { ... }` of `S3Select`. -/
def S3Select.drain : List Event → World → World
  | [], w => w
  | Event.Records payload :: more, w => S3Select.drain more (fmtPrint w payload)
  | _ :: more, w => S3Select.drain more w

/-- The call `stream.Close()`. -/
def streamClose (w : World) : World :=
  { w with closeCalls := w.closeCalls + 1 }

/-- The function `S3Select` of `s3s.go`; `SelectObjectContent` is the client call.  The deferred
`stream.Close()` runs when the function returns, on the paths that registered it. -/
def S3Select (SelectObjectContent : SelectObjectContentInput →
      Except GoError SelectObjectContentEventStream)
    (w : World) (bucket key query : GoString) : World × Option GoError :=
  let params := S3Select.params bucket key query
  let w1 := { w with submitted := w.submitted ++ [params] }
  match SelectObjectContent params with
  | .error err => (w1, some err)
  | .ok stream =>
    let w2 := S3Select.drain stream.Events w1
    match stream.Err with
    | some err => (streamClose w2, some err)
    | none => (streamClose w2, none)

/-- The payloads of the `Records` events of a stream, in arrival order. -/
def recordPayloads : List Event → List GoString
  | [] => []
  | Event.Records payload :: more => payload :: recordPayloads more
  | _ :: more => recordPayloads more

/-! ## Lemmas on suffixes -/

theorem strings_HasSuffix_iff (s suffix : GoString) :
    strings.HasSuffix s suffix = true ↔ ∃ t, s = t ++ suffix := by
  unfold strings.HasSuffix
  simp only [Bool.and_eq_true, decide_eq_true_eq, beq_iff_eq]
  constructor
  · rintro ⟨_, h⟩
    refine ⟨s.take (s.length - suffix.length), ?_⟩
    conv_lhs => rw [← List.take_append_drop (s.length - suffix.length) s]
    rw [h]
  · rintro ⟨t, rfl⟩
    simp

theorem lit_gz : lit ".gz" = [46, 103, 122] := by decide

theorem lit_bz2 : lit ".bz2" = [46, 98, 122, 50] := by decide

theorem gz_bz2_exclusive (key : GoString) :
    ¬ ((∃ t, key = t ++ lit ".gz") ∧ (∃ t, key = t ++ lit ".bz2")) := by
  rintro ⟨⟨t, h1⟩, ⟨u, h2⟩⟩
  rw [lit_gz] at h1
  rw [lit_bz2] at h2
  have h := congrArg List.reverse (h1.symm.trans h2)
  simp at h

/-! ## Lemmas on the fill loop -/

theorem fillFrom_append (vs : List GoString) :
    ∀ done rest : List GoString,
      fillFrom (vs.map some) done.length (done ++ rest) =
        if vs.length ≤ rest.length then some (done ++ vs ++ rest.drop vs.length) else none := by
  induction vs with
  | nil => intro done rest; simp [fillFrom]
  | cons v vs ih =>
    intro done rest
    cases rest with
    | nil => simp [fillFrom, storeAt]
    | cons r rest =>
      have hs : storeAt (done ++ r :: rest) done.length v = some ((done ++ [v]) ++ rest) := by
        simp [storeAt]
      have h := ih (done ++ [v]) rest
      simp only [List.length_append, List.length_singleton] at h
      simp only [List.map_cons, fillFrom, hs, h]
      simp

theorem fillFrom_nil_pointer (src : List (Option GoString)) (hn : none ∈ src) :
    ∀ (i : Nat) (dst : List GoString), fillFrom src i dst = none := by
  induction src with
  | nil => simp at hn
  | cons x src ih =>
    intro i dst
    cases x with
    | none => simp [fillFrom]
    | some v =>
      have hn1 : none ∈ src := by simpa using hn
      simp only [fillFrom]
      cases storeAt dst i v with
      | none => rfl
      | some d => exact ih hn1 (i + 1) d

theorem map_eq_map_some_filterMap {α : Type} (f : α → Option GoString) (l : List α)
    (h : ∀ x ∈ l, f x ≠ none) : l.map f = (l.filterMap f).map some := by
  induction l with
  | nil => rfl
  | cons a l ih =>
    have ha : f a ≠ none := h a (List.mem_cons_self a l)
    have hl : ∀ x ∈ l, f x ≠ none := fun x hx => h x (List.mem_cons_of_mem a hx)
    obtain ⟨v, hv⟩ := Option.ne_none_iff_exists'.mp ha
    simp [List.filterMap_cons, hv, ih hl]

theorem length_filterMap_present {α : Type} (f : α → Option GoString) (l : List α)
    (h : ∀ x ∈ l, f x ≠ none) : (l.filterMap f).length = l.length := by
  have := congrArg List.length (map_eq_map_some_filterMap f l h)
  simpa using this.symm

theorem fill_fresh (src : List (Option GoString)) (h : ∀ x ∈ src, x ≠ none) (n : Nat) :
    fillFrom src 0 (List.replicate n []) =
      if src.length ≤ n then
        some (src.filterMap id ++ List.replicate (n - src.length) [])
      else none := by
  have e : src = (src.filterMap id).map some := by
    simpa using map_eq_map_some_filterMap id src h
  have hl : (src.filterMap id).length = src.length := length_filterMap_present id src h
  have h0 := fillFrom_append (src.filterMap id) [] (List.replicate n [])
  simp only [List.length_nil, List.nil_append, List.length_replicate, hl,
    List.drop_replicate] at h0
  rw [← e] at h0
  exact h0

theorem make_length (k : Nat) : make (k : Int) = some (List.replicate k []) := by
  simp [make]

/-! ## Lemmas on one page -/

theorem GetS3Dir_pageKeys_present (p : ListObjectsV2Output) (h : prefixesPresent p) :
    GetS3Dir.pageKeys p = some (prefixesOf p) := by
  have hs : ∀ x ∈ p.CommonPrefixes.map (fun c => c.Prefix), x ≠ none := by
    intro x hx
    obtain ⟨c, hc, rfl⟩ := List.mem_map.mp hx
    exact h c hc
  unfold GetS3Dir.pageKeys
  rw [make_length]
  simp only [fill_fresh _ hs, List.length_map, le_refl, if_true, Nat.sub_self,
    List.replicate_zero, List.append_nil, List.filterMap_map]
  rfl

theorem GetS3Dir_pageKeys_absent (p : ListObjectsV2Output) (h : ¬ prefixesPresent p) :
    GetS3Dir.pageKeys p = none := by
  have hn : none ∈ p.CommonPrefixes.map (fun c => c.Prefix) := by
    unfold prefixesPresent at h
    push_neg at h
    obtain ⟨c, hc, hcn⟩ := h
    exact List.mem_map.mpr ⟨c, hc, hcn⟩
  unfold GetS3Dir.pageKeys
  rw [make_length]
  exact fillFrom_nil_pointer _ hn 0 _

theorem GetS3Keys_pageKeys_present (p : ListObjectsV2Output) (h : keysPresent p) :
    GetS3Keys.pageKeys p =
      if (p.Contents.length : Int) ≤ p.KeyCount then
        some (keysOf p ++ List.replicate (p.KeyCount.toNat - p.Contents.length) [])
      else none := by
  have hs : ∀ x ∈ p.Contents.map (fun o => o.Key), x ≠ none := by
    intro x hx
    obtain ⟨o, ho, rfl⟩ := List.mem_map.mp hx
    exact h o ho
  unfold GetS3Keys.pageKeys make
  by_cases hneg : p.KeyCount < 0
  · have : ¬ (p.Contents.length : Int) ≤ p.KeyCount := by omega
    simp [hneg, this]
  · have hiff : p.Contents.length ≤ p.KeyCount.toNat ↔ (p.Contents.length : Int) ≤ p.KeyCount := by
      omega
    simp only [hneg, if_false, fill_fresh _ hs, List.length_map, hiff, List.filterMap_map]
    rfl

theorem GetS3Keys_pageKeys_absent (p : ListObjectsV2Output) (h : ¬ keysPresent p) :
    GetS3Keys.pageKeys p = none := by
  have hn : none ∈ p.Contents.map (fun o => o.Key) := by
    unfold keysPresent at h
    push_neg at h
    obtain ⟨o, ho, hon⟩ := h
    exact List.mem_map.mpr ⟨o, ho, hon⟩
  unfold GetS3Keys.pageKeys
  cases make p.KeyCount with
  | none => rfl
  | some s => exact fillFrom_nil_pointer _ hn 0 s

/-! ## Lemmas on the pagination loops -/

theorem GetS3Dir_loop_pages (f : ListObjectsV2Output → List GoString)
    (pages : List ListObjectsV2Output) (hp : ∀ p ∈ pages, GetS3Dir.pageKeys p = some (f p))
    (more : List (Except GoError ListObjectsV2Output)) :
    ∀ (n : Nat) (acc : List GoString),
      GetS3Dir.loop (pages.map Except.ok ++ more) n acc =
        GetS3Dir.loop more (n + pages.length) (acc ++ pages.flatMap f) := by
  induction pages with
  | nil => intro n acc; simp
  | cons p pages ih =>
    intro n acc
    have h1 := hp p (List.mem_cons_self p pages)
    have h2 : ∀ q ∈ pages, GetS3Dir.pageKeys q = some (f q) :=
      fun q hq => hp q (List.mem_cons_of_mem p hq)
    have e := ih h2 (n + 1) (acc ++ f p)
    simp only [List.map_cons, List.cons_append, GetS3Dir.loop, h1]
    show GetS3Dir.loop (pages.map Except.ok ++ more) (n + 1) (acc ++ f p) = _
    have hn : n + 1 + pages.length = n + (pages.length + 1) := by omega
    rw [e, List.length_cons, List.flatMap_cons, List.append_assoc, hn]

theorem GetS3Keys_loop_pages (f : ListObjectsV2Output → List GoString)
    (pages : List ListObjectsV2Output) (hp : ∀ p ∈ pages, GetS3Keys.pageKeys p = some (f p))
    (more : List (Except GoError ListObjectsV2Output)) :
    ∀ (n : Nat) (acc : List GoString),
      GetS3Keys.loop (pages.map Except.ok ++ more) n acc =
        GetS3Keys.loop more (n + pages.length) (acc ++ pages.flatMap f) := by
  induction pages with
  | nil => intro n acc; simp
  | cons p pages ih =>
    intro n acc
    have h1 := hp p (List.mem_cons_self p pages)
    have h2 : ∀ q ∈ pages, GetS3Keys.pageKeys q = some (f q) :=
      fun q hq => hp q (List.mem_cons_of_mem p hq)
    have e := ih h2 (n + 1) (acc ++ f p)
    simp only [List.map_cons, List.cons_append, GetS3Keys.loop, h1]
    show GetS3Keys.loop (pages.map Except.ok ++ more) (n + 1) (acc ++ f p) = _
    have hn : n + 1 + pages.length = n + (pages.length + 1) := by omega
    rw [e, List.length_cons, List.flatMap_cons, List.append_assoc, hn]

theorem GetS3Dir_loop_pages_or_panic (pages : List ListObjectsV2Output)
    (more : List (Except GoError ListObjectsV2Output)) :
    ∀ (n : Nat) (acc : List GoString),
      (GetS3Dir.loop (pages.map Except.ok ++ more) n acc).result = Outcome.panicked ∨
      ((∀ p ∈ pages, GetS3Dir.pageKeys p ≠ none) ∧
        ∃ bs, GetS3Dir.loop (pages.map Except.ok ++ more) n acc =
          GetS3Dir.loop more (n + pages.length) (acc ++ bs)) := by
  induction pages with
  | nil => intro n acc; right; exact ⟨by simp, [], by simp⟩
  | cons p pages ih =>
    intro n acc
    cases hpk : GetS3Dir.pageKeys p with
    | none => left; simp [GetS3Dir.loop, hpk]
    | some b =>
      have hstep : GetS3Dir.loop ((p :: pages).map Except.ok ++ more) n acc =
          GetS3Dir.loop (pages.map Except.ok ++ more) (n + 1) (acc ++ b) := by
        simp only [List.map_cons, List.cons_append, GetS3Dir.loop, hpk]
        rfl
      rw [hstep]
      rcases ih (n + 1) (acc ++ b) with h | ⟨hall, bs, hbs⟩
      · left; exact h
      · right
        refine ⟨?_, b ++ bs, ?_⟩
        · intro q hq
          rcases List.mem_cons.mp hq with rfl | hq
          · simp [hpk]
          · exact hall q hq
        · have hn : n + 1 + pages.length = n + (p :: pages).length := by
            simp only [List.length_cons]; omega
          rw [hbs, hn, List.append_assoc]

theorem GetS3Keys_loop_pages_or_panic (pages : List ListObjectsV2Output)
    (more : List (Except GoError ListObjectsV2Output)) :
    ∀ (n : Nat) (acc : List GoString),
      (GetS3Keys.loop (pages.map Except.ok ++ more) n acc).result = Outcome.panicked ∨
      ((∀ p ∈ pages, GetS3Keys.pageKeys p ≠ none) ∧
        ∃ bs, GetS3Keys.loop (pages.map Except.ok ++ more) n acc =
          GetS3Keys.loop more (n + pages.length) (acc ++ bs)) := by
  induction pages with
  | nil => intro n acc; right; exact ⟨by simp, [], by simp⟩
  | cons p pages ih =>
    intro n acc
    cases hpk : GetS3Keys.pageKeys p with
    | none => left; simp [GetS3Keys.loop, hpk]
    | some b =>
      have hstep : GetS3Keys.loop ((p :: pages).map Except.ok ++ more) n acc =
          GetS3Keys.loop (pages.map Except.ok ++ more) (n + 1) (acc ++ b) := by
        simp only [List.map_cons, List.cons_append, GetS3Keys.loop, hpk]
        rfl
      rw [hstep]
      rcases ih (n + 1) (acc ++ b) with h | ⟨hall, bs, hbs⟩
      · left; exact h
      · right
        refine ⟨?_, b ++ bs, ?_⟩
        · intro q hq
          rcases List.mem_cons.mp hq with rfl | hq
          · simp [hpk]
          · exact hall q hq
        · have hn : n + 1 + pages.length = n + (p :: pages).length := by
            simp only [List.length_cons]; omega
          rw [hbs, hn, List.append_assoc]

theorem GetS3Keys_pageKeys_padded (p : ListObjectsV2Output) (h : keysPresent p)
    (hc : (p.Contents.length : Int) ≤ p.KeyCount) :
    GetS3Keys.pageKeys p = some (paddedKeysOf p) := by
  rw [GetS3Keys_pageKeys_present p h, if_pos hc, paddedKeysOf]

theorem GetS3Keys_pageKeys_in_bounds (p : ListObjectsV2Output) (h : keysPresent p) :
    GetS3Keys.pageKeys p ≠ none ↔ (p.Contents.length : Int) ≤ p.KeyCount := by
  rw [GetS3Keys_pageKeys_present p h]
  by_cases hc : (p.Contents.length : Int) ≤ p.KeyCount <;> simp [hc]

theorem length_keysOf (p : ListObjectsV2Output) (h : keysPresent p) :
    (keysOf p).length = p.Contents.length := by
  unfold keysPresent at h
  exact length_filterMap_present (fun o => o.Key) p.Contents h

theorem length_paddedKeysOf (p : ListObjectsV2Output) (h : keysPresent p)
    (hc : (p.Contents.length : Int) ≤ p.KeyCount) :
    ((paddedKeysOf p).length : Int) = p.KeyCount := by
  simp only [paddedKeysOf, List.length_append, List.length_replicate, length_keysOf p h]
  omega

theorem length_flatMap_padded (pages : List ListObjectsV2Output)
    (h : ∀ p ∈ pages, keysPresent p ∧ (p.Contents.length : Int) ≤ p.KeyCount) :
    ((pages.flatMap paddedKeysOf).length : Int) = (pages.map (fun p => p.KeyCount)).sum := by
  induction pages with
  | nil => simp
  | cons p pages ih =>
    have h1 := h p (List.mem_cons_self p pages)
    have h2 := ih (fun q hq => h q (List.mem_cons_of_mem p hq))
    simp only [List.flatMap_cons, List.length_append, List.map_cons, List.sum_cons,
      Nat.cast_add, h2, length_paddedKeysOf p h1.1 h1.2]

theorem length_flatMap_keysOf (pages : List ListObjectsV2Output)
    (h : ∀ p ∈ pages, keysPresent p) :
    ((pages.flatMap keysOf).length : Int) =
      (pages.map (fun p => (p.Contents.length : Int))).sum := by
  induction pages with
  | nil => simp
  | cons p pages ih =>
    have h1 := h p (List.mem_cons_self p pages)
    have h2 := ih (fun q hq => h q (List.mem_cons_of_mem p hq))
    simp only [List.flatMap_cons, List.length_append, List.map_cons, List.sum_cons,
      Nat.cast_add, h2, length_keysOf p h1]

theorem eq_of_le_of_sum_eq (pages : List ListObjectsV2Output)
    (h : ∀ p ∈ pages, (p.Contents.length : Int) ≤ p.KeyCount)
    (hs : (pages.map (fun p => p.KeyCount)).sum =
      (pages.map (fun p => (p.Contents.length : Int))).sum) :
    ∀ p ∈ pages, p.KeyCount = (p.Contents.length : Int) := by
  induction pages with
  | nil => intro p hp; simp at hp
  | cons q pages ih =>
    have h1 := h q (List.mem_cons_self q pages)
    have h2 : ∀ p ∈ pages, (p.Contents.length : Int) ≤ p.KeyCount :=
      fun p hp => h p (List.mem_cons_of_mem q hp)
    have hle : (pages.map (fun p => (p.Contents.length : Int))).sum ≤
        (pages.map (fun p => p.KeyCount)).sum :=
      List.sum_le_sum h2
    simp only [List.map_cons, List.sum_cons] at hs
    intro p hp
    rcases List.mem_cons.mp hp with rfl | hp
    · omega
    · exact ih h2 (by omega) p hp

/-! ## Lemmas on the select stream -/

theorem S3Select_drain_stdout (events : List Event) :
    ∀ w : World, (S3Select.drain events w).stdout = w.stdout ++ (recordPayloads events).flatten := by
  induction events with
  | nil => intro w; simp [S3Select.drain, recordPayloads]
  | cons ev events ih =>
    intro w
    cases ev <;> simp [S3Select.drain, recordPayloads, ih, fmtPrint]

theorem S3Select_drain_closeCalls (events : List Event) :
    ∀ w : World, (S3Select.drain events w).closeCalls = w.closeCalls := by
  induction events with
  | nil => intro w; simp [S3Select.drain]
  | cons ev events ih =>
    intro w
    cases ev <;> simp [S3Select.drain, ih, fmtPrint]

theorem recordPayloads_no_records (events : List Event)
    (h : ∀ ev ∈ events, ∀ payload, ev ≠ Event.Records payload) : recordPayloads events = [] := by
  induction events with
  | nil => rfl
  | cons ev events ih =>
    have h2 := ih (fun e he => h e (List.mem_cons_of_mem ev he))
    have h1 := h ev (List.mem_cons_self ev events)
    cases ev with
    | Records payload => exact absurd rfl (h1 payload)
    | Progress => simpa [recordPayloads] using h2
    | Stats => simpa [recordPayloads] using h2
    | Cont => simpa [recordPayloads] using h2
    | End => simpa [recordPayloads] using h2

/-! ## Compression inference -/

/-- C4: `suggestCompressionType` is total with three outcomes: Gzip exactly for keys
ending in the bytes `.gz`, Bzip2 exactly for keys ending in the bytes `.bz2`, None
exactly for all other keys; the match is case-sensitive (`a.gz`, `a.tar.bz2`,
`a.json`, `a.GZ` give Gzip, Bzip2, None, None). -/
theorem suggestCompressionType_suffix_spec :
    (∀ key : GoString,
      (suggestCompressionType key = CompressionTypeGzip ↔ ∃ t, key = t ++ lit ".gz") ∧
      (suggestCompressionType key = CompressionTypeBzip2 ↔ ∃ t, key = t ++ lit ".bz2") ∧
      (suggestCompressionType key = CompressionTypeNone ↔
        ¬ (∃ t, key = t ++ lit ".gz") ∧ ¬ (∃ t, key = t ++ lit ".bz2"))) ∧
    suggestCompressionType (lit "a.gz") = CompressionTypeGzip ∧
    suggestCompressionType (lit "a.tar.bz2") = CompressionTypeBzip2 ∧
    suggestCompressionType (lit "a.json") = CompressionTypeNone ∧
    suggestCompressionType (lit "a.GZ") = CompressionTypeNone := by
  refine ⟨?_, by decide, by decide, by decide, by decide⟩
  intro key
  have hx := gz_bz2_exclusive key
  have hg := strings_HasSuffix_iff key (lit ".gz")
  have hb := strings_HasSuffix_iff key (lit ".bz2")
  unfold suggestCompressionType
  by_cases h1 : strings.HasSuffix key (lit ".gz") = true
  · have e1 := hg.mp h1
    have e2 : ¬ ∃ t, key = t ++ lit ".bz2" := fun h => hx ⟨e1, h⟩
    simp [h1, e1, e2]
  · have e1 : ¬ ∃ t, key = t ++ lit ".gz" := fun h => h1 (hg.mpr h)
    by_cases h2 : strings.HasSuffix key (lit ".bz2") = true
    · have e2 := hb.mp h2
      simp [h1, h2, e1, e2]
    · have e2 : ¬ ∃ t, key = t ++ lit ".bz2" := fun h => h2 (hb.mpr h)
      simp [h1, h2, e1, e2]

/-! ## Bucket listing -/

/-- C8, as stated, fails: for the response whose second bucket entry has a nil `Name`,
`GetS3Bucket` does not fail with an error; the nil dereference panics, and no result
tuple, with or without an error value, is returned. -/
theorem GetS3Bucket_nil_name_returns_no_error :
    GetS3Bucket (Except.ok ⟨[⟨some (lit "logs")⟩, ⟨none⟩]⟩) = Outcome.panicked ∧
    ¬ (∃ names err, GetS3Bucket (Except.ok ⟨[⟨some (lit "logs")⟩, ⟨none⟩]⟩) =
        Outcome.returned (names, some err)) := by
  have h : GetS3Bucket (Except.ok ⟨[⟨some (lit "logs")⟩, ⟨none⟩]⟩) = Outcome.panicked := by
    decide
  refine ⟨h, ?_⟩
  rintro ⟨names, err, hret⟩
  rw [h] at hret
  cases hret

/-- C8, amended: for every bucket-list response `GetS3Bucket` either returns exactly the
bucket names in response order, one per entry and with a nil error, or does not return:
when every entry carries a name the names are returned; when some entry has a nil
`Name` the nil dereference panics at run time and no result and no error value is
returned; whatever the call returns is the full list of names with a nil error, never
one that skips or blanks an entry. -/
theorem GetS3Bucket_names_or_failure (output : ListBucketsOutput) :
    ((∀ b ∈ output.Buckets, b.Name ≠ none) →
      ∃ names, GetS3Bucket (Except.ok output) = Outcome.returned (names, none) ∧
        names.map some = output.Buckets.map (fun b => b.Name) ∧
        names.length = output.Buckets.length) ∧
    ((∃ b ∈ output.Buckets, b.Name = none) →
      GetS3Bucket (Except.ok output) = Outcome.panicked) ∧
    (∀ names err, GetS3Bucket (Except.ok output) = Outcome.returned (names, err) →
      err = none ∧ names.map some = output.Buckets.map (fun b => b.Name) ∧
        names.length = output.Buckets.length) := by
  have hpresent : (∀ b ∈ output.Buckets, b.Name ≠ none) →
      GetS3Bucket (Except.ok output) =
          Outcome.returned (output.Buckets.filterMap (fun b => b.Name), none) ∧
        (output.Buckets.filterMap (fun b => b.Name)).map some =
          output.Buckets.map (fun b => b.Name) ∧
        (output.Buckets.filterMap (fun b => b.Name)).length = output.Buckets.length := by
    intro h
    have hs : ∀ x ∈ output.Buckets.map (fun b => b.Name), x ≠ none := by
      intro x hx
      obtain ⟨b, hb, rfl⟩ := List.mem_map.mp hx
      exact h b hb
    refine ⟨?_, (map_eq_map_some_filterMap _ _ h).symm, length_filterMap_present _ _ h⟩
    simp only [GetS3Bucket, make_length, fill_fresh _ hs, List.length_map, le_refl, if_true,
      Nat.sub_self, List.replicate_zero, List.append_nil, List.filterMap_map]
    rfl
  have habsent : (∃ b ∈ output.Buckets, b.Name = none) →
      GetS3Bucket (Except.ok output) = Outcome.panicked := by
    rintro ⟨b, hb, hbn⟩
    have hn : none ∈ output.Buckets.map (fun b => b.Name) := List.mem_map.mpr ⟨b, hb, hbn⟩
    simp only [GetS3Bucket, make_length, fillFrom_nil_pointer _ hn]
  refine ⟨fun h => ⟨_, hpresent h⟩, habsent, ?_⟩
  intro names err hret
  by_cases h : ∀ b ∈ output.Buckets, b.Name ≠ none
  · obtain ⟨h1, h2, h3⟩ := hpresent h
    rw [h1] at hret
    injection hret with hret
    injection hret with hn he
    subst hn
    exact ⟨he.symm, h2, h3⟩
  · push_neg at h
    rw [habsent h] at hret
    cases hret

theorem GetS3Bucket_names_or_failure_witness :
    (∀ b ∈ (ListBucketsOutput.mk [⟨some (lit "logs")⟩, ⟨some (lit "data")⟩]).Buckets,
        b.Name ≠ none) ∧
      GetS3Bucket (Except.ok ⟨[⟨some (lit "logs")⟩, ⟨some (lit "data")⟩]⟩) =
        Outcome.returned ([lit "logs", lit "data"], none) ∧
      (∃ b ∈ (ListBucketsOutput.mk [⟨some (lit "logs")⟩, ⟨none⟩]).Buckets, b.Name = none) ∧
      GetS3Bucket (Except.ok ⟨[⟨some (lit "logs")⟩, ⟨none⟩]⟩) = Outcome.panicked :=
  ⟨by decide, by decide, by decide,
    (GetS3Bucket_names_or_failure ⟨[⟨some (lit "logs")⟩, ⟨none⟩]⟩).2.1 (by decide)⟩

/-! ## Paginated listing -/

/-- C1: evaluation of `GetS3Keys` on single pages whose `KeyCount` differs from the
number of `Contents` entries: with `KeyCount = 0` and one object the index store
panics, with `KeyCount = 2` and one object an empty key is appended; with
`KeyCount = 1` the key alone is returned, and the empty page gives the empty result. -/
theorem GetS3Keys_KeyCount_mismatch :
    GetS3Keys [Except.ok ⟨[], [⟨some (lit "a")⟩], 0⟩] = ⟨Outcome.panicked, 1⟩ ∧
    GetS3Keys [Except.ok ⟨[], [⟨some (lit "a")⟩], 2⟩] =
      ⟨Outcome.returned ([lit "a", lit ""], none), 1⟩ ∧
    GetS3Keys [Except.ok ⟨[], [⟨some (lit "a")⟩], 1⟩] =
      ⟨Outcome.returned ([lit "a"], none), 1⟩ ∧
    GetS3Keys [Except.ok ⟨[], [], 0⟩] = ⟨Outcome.returned ([], none), 1⟩ := by
  decide

/-- C2: for every finite sequence of successfully fetched pages whose `CommonPrefixes`
entries carry their `Prefix`, `GetS3Dir` returns a nil error and the concatenation, in
page order and within-page order, of the pages' `Prefix` strings (nothing is sorted or
de-duplicated), after fetching every page once. -/
theorem GetS3Dir_concatenates_prefixes (pages : List ListObjectsV2Output)
    (h : ∀ p ∈ pages, prefixesPresent p) :
    GetS3Dir (pages.map Except.ok) =
      ⟨Outcome.returned (pages.flatMap prefixesOf, none), pages.length⟩ := by
  have hp : ∀ p ∈ pages, GetS3Dir.pageKeys p = some (prefixesOf p) :=
    fun p hp => GetS3Dir_pageKeys_present p (h p hp)
  have e := GetS3Dir_loop_pages prefixesOf pages hp [] 0 []
  simp only [List.append_nil, List.nil_append, Nat.zero_add, GetS3Dir.loop] at e
  exact e

theorem GetS3Dir_concatenates_prefixes_witness :
    (∀ p ∈ ([⟨[⟨some (lit "b/")⟩, ⟨some (lit "a/")⟩], [], 2⟩, ⟨[], [], 0⟩,
        ⟨[⟨some (lit "a/")⟩], [], 1⟩] : List ListObjectsV2Output), prefixesPresent p) ∧
      GetS3Dir (([⟨[⟨some (lit "b/")⟩, ⟨some (lit "a/")⟩], [], 2⟩, ⟨[], [], 0⟩,
        ⟨[⟨some (lit "a/")⟩], [], 1⟩] : List ListObjectsV2Output).map Except.ok) =
        ⟨Outcome.returned ([lit "b/", lit "a/", lit "a/"], none), 3⟩ :=
  ⟨by decide, GetS3Dir_concatenates_prefixes _ (by decide)⟩

/-- C3: when the fetch of a page fails after `pre` successfully fetched pages, both
listers return that page's error with a nil result and fetch nothing further: this
holds whenever the earlier pages were processed (their entries carry their strings and,
for `GetS3Keys`, `KeyCount` covers `Contents`), however many keys they contributed;
and in every case a call that returns at all returns the nil result with that error,
never a truncated listing. -/
theorem listing_fetch_failure_discards_result (pre : List ListObjectsV2Output)
    (err : GoError) (more : List (Except GoError ListObjectsV2Output)) :
    ((∀ p ∈ pre, prefixesPresent p) →
      GetS3Dir (pre.map Except.ok ++ Except.error err :: more) =
        ⟨Outcome.returned ([], some err), pre.length + 1⟩) ∧
    ((∀ p ∈ pre, keysPresent p ∧ (p.Contents.length : Int) ≤ p.KeyCount) →
      GetS3Keys (pre.map Except.ok ++ Except.error err :: more) =
        ⟨Outcome.returned ([], some err), pre.length + 1⟩) ∧
    (∀ keys e, (GetS3Dir (pre.map Except.ok ++ Except.error err :: more)).result =
        Outcome.returned (keys, e) → keys = [] ∧ e = some err) ∧
    (∀ keys e, (GetS3Keys (pre.map Except.ok ++ Except.error err :: more)).result =
        Outcome.returned (keys, e) → keys = [] ∧ e = some err) := by
  refine ⟨?_, ?_, ?_, ?_⟩
  · intro h
    have hp : ∀ p ∈ pre, GetS3Dir.pageKeys p = some (prefixesOf p) :=
      fun p hp => GetS3Dir_pageKeys_present p (h p hp)
    have e := GetS3Dir_loop_pages prefixesOf pre hp (Except.error err :: more) 0 []
    simp only [Nat.zero_add, GetS3Dir.loop] at e
    exact e
  · intro h
    have hp : ∀ p ∈ pre, GetS3Keys.pageKeys p = some (paddedKeysOf p) :=
      fun p hp => GetS3Keys_pageKeys_padded p (h p hp).1 (h p hp).2
    have e := GetS3Keys_loop_pages paddedKeysOf pre hp (Except.error err :: more) 0 []
    simp only [Nat.zero_add, GetS3Keys.loop] at e
    exact e
  · intro keys e hret
    rcases GetS3Dir_loop_pages_or_panic pre (Except.error err :: more) 0 [] with h | ⟨_, bs, h⟩
    · rw [GetS3Dir, h] at hret
      cases hret
    · rw [GetS3Dir, h] at hret
      simp only [GetS3Dir.loop] at hret
      injection hret with hret
      injection hret with h1 h2
      exact ⟨h1.symm, h2.symm⟩
  · intro keys e hret
    rcases GetS3Keys_loop_pages_or_panic pre (Except.error err :: more) 0 [] with h | ⟨_, bs, h⟩
    · rw [GetS3Keys, h] at hret
      cases hret
    · rw [GetS3Keys, h] at hret
      simp only [GetS3Keys.loop] at hret
      injection hret with hret
      injection hret with h1 h2
      exact ⟨h1.symm, h2.symm⟩

theorem listing_fetch_failure_discards_result_witness :
    (∀ p ∈ ([⟨[⟨some (lit "a/")⟩], [⟨some (lit "k1")⟩, ⟨some (lit "k2")⟩], 2⟩] :
        List ListObjectsV2Output), prefixesPresent p) ∧
      GetS3Dir ([Except.ok ⟨[⟨some (lit "a/")⟩], [⟨some (lit "k1")⟩, ⟨some (lit "k2")⟩], 2⟩,
          Except.error ⟨"timeout"⟩, Except.ok ⟨[⟨some (lit "z/")⟩], [], 1⟩]) =
        ⟨Outcome.returned ([], some ⟨"timeout"⟩), 2⟩ ∧
      (∀ p ∈ ([⟨[⟨some (lit "a/")⟩], [⟨some (lit "k1")⟩, ⟨some (lit "k2")⟩], 2⟩] :
        List ListObjectsV2Output), keysPresent p ∧ (p.Contents.length : Int) ≤ p.KeyCount) ∧
      GetS3Keys ([Except.ok ⟨[⟨some (lit "a/")⟩], [⟨some (lit "k1")⟩, ⟨some (lit "k2")⟩], 2⟩,
          Except.error ⟨"timeout"⟩, Except.ok ⟨[⟨some (lit "z/")⟩], [], 1⟩]) =
        ⟨Outcome.returned ([], some ⟨"timeout"⟩), 2⟩ :=
  ⟨by decide,
    (listing_fetch_failure_discards_result
      [⟨[⟨some (lit "a/")⟩], [⟨some (lit "k1")⟩, ⟨some (lit "k2")⟩], 2⟩] ⟨"timeout"⟩
      [Except.ok ⟨[⟨some (lit "z/")⟩], [], 1⟩]).1 (by decide),
    by decide,
    (listing_fetch_failure_discards_result
      [⟨[⟨some (lit "a/")⟩], [⟨some (lit "k1")⟩, ⟨some (lit "k2")⟩], 2⟩] ⟨"timeout"⟩
      [Except.ok ⟨[⟨some (lit "z/")⟩], [], 1⟩]).2.1 (by decide)⟩

/-- C10: `GetS3Keys` sizes each batch by `KeyCount`.  For successful pages whose
`Contents` entries carry their keys: if `KeyCount >= len(Contents)` on every page the
call returns, each page contributing its keys followed by `KeyCount - len(Contents)`
empty strings, and the result length is the sum of the `KeyCount` values; on each page
the batch is built without a run-time panic, and every index store `pageKeys[i]` for
`i < len(Contents)` into the made slice is in bounds, exactly when
`KeyCount >= len(Contents)`; and the result is the plain concatenation of the keys
exactly when `KeyCount = len(Contents)` on every page. -/
theorem GetS3Keys_batches_sized_by_KeyCount (pages : List ListObjectsV2Output)
    (hk : ∀ p ∈ pages, keysPresent p) :
    ((∀ p ∈ pages, (p.Contents.length : Int) ≤ p.KeyCount) →
      GetS3Keys (pages.map Except.ok) =
          ⟨Outcome.returned (pages.flatMap fun p =>
            keysOf p ++ List.replicate (p.KeyCount.toNat - p.Contents.length) [], none),
            pages.length⟩ ∧
        (((pages.flatMap fun p =>
            keysOf p ++ List.replicate (p.KeyCount.toNat - p.Contents.length) []).length : Int) =
          (pages.map fun p => p.KeyCount).sum)) ∧
    (∀ p ∈ pages,
      (GetS3Keys.pageKeys p ≠ none ↔ (p.Contents.length : Int) ≤ p.KeyCount) ∧
      (∀ pageKeys, make p.KeyCount = some pageKeys →
        ((∀ i, i < p.Contents.length → ∀ v, storeAt pageKeys i v ≠ none) ↔
          (p.Contents.length : Int) ≤ p.KeyCount))) ∧
    ((GetS3Keys (pages.map Except.ok)).result =
        Outcome.returned (pages.flatMap keysOf, none) ↔
      ∀ p ∈ pages, p.KeyCount = (p.Contents.length : Int)) := by
  have hrun : (∀ p ∈ pages, (p.Contents.length : Int) ≤ p.KeyCount) →
      GetS3Keys (pages.map Except.ok) =
        ⟨Outcome.returned (pages.flatMap paddedKeysOf, none), pages.length⟩ := by
    intro hc
    have hp : ∀ p ∈ pages, GetS3Keys.pageKeys p = some (paddedKeysOf p) :=
      fun p hp => GetS3Keys_pageKeys_padded p (hk p hp) (hc p hp)
    have e := GetS3Keys_loop_pages paddedKeysOf pages hp [] 0 []
    simp only [List.append_nil, List.nil_append, Nat.zero_add, GetS3Keys.loop] at e
    exact e
  refine ⟨?_, ?_, ?_⟩
  · intro hc
    exact ⟨hrun hc, length_flatMap_padded pages (fun p hp => ⟨hk p hp, hc p hp⟩)⟩
  · intro p hp
    refine ⟨GetS3Keys_pageKeys_in_bounds p (hk p hp), ?_⟩
    intro pageKeys hm
    unfold make at hm
    by_cases hneg : p.KeyCount < 0
    · simp [hneg] at hm
    · simp only [hneg, if_false, Option.some.injEq] at hm
      subst hm
      simp only [storeAt, List.length_replicate]
      constructor
      · intro hb
        by_contra hlt
        have hi : p.KeyCount.toNat < p.Contents.length := by omega
        have := hb p.KeyCount.toNat hi []
        simp at this
      · intro hc i hi v
        have : i < p.KeyCount.toNat := by omega
        simp [this]
  · constructor
    · intro hret
      have hsome : ∀ p ∈ pages, GetS3Keys.pageKeys p ≠ none := by
        rcases GetS3Keys_loop_pages_or_panic pages [] 0 [] with h | ⟨hall, _⟩
        · rw [List.append_nil] at h
          rw [GetS3Keys, h] at hret
          cases hret
        · exact hall
      have hc : ∀ p ∈ pages, (p.Contents.length : Int) ≤ p.KeyCount :=
        fun p hp => (GetS3Keys_pageKeys_in_bounds p (hk p hp)).mp (hsome p hp)
      rw [hrun hc] at hret
      injection hret with hret
      injection hret with hl _
      have h1 := length_flatMap_padded pages (fun p hp => ⟨hk p hp, hc p hp⟩)
      have h2 := length_flatMap_keysOf pages hk
      rw [hl] at h1
      exact eq_of_le_of_sum_eq pages hc (h1.symm.trans h2)
    · intro heq
      have hc : ∀ p ∈ pages, (p.Contents.length : Int) ≤ p.KeyCount :=
        fun p hp => le_of_eq (heq p hp).symm
      rw [hrun hc]
      have hf : pages.flatMap paddedKeysOf = pages.flatMap keysOf := by
        apply List.flatMap_congr
        intro p hp
        have := heq p hp
        simp [paddedKeysOf, this]
      simp [hf]

theorem GetS3Keys_batches_sized_by_KeyCount_witness :
    (∀ p ∈ ([⟨[], [⟨some (lit "k1")⟩], 3⟩, ⟨[], [], 0⟩,
        ⟨[], [⟨some (lit "k2")⟩, ⟨some (lit "k3")⟩], 2⟩] : List ListObjectsV2Output),
        keysPresent p) ∧
      (∀ p ∈ ([⟨[], [⟨some (lit "k1")⟩], 3⟩, ⟨[], [], 0⟩,
        ⟨[], [⟨some (lit "k2")⟩, ⟨some (lit "k3")⟩], 2⟩] : List ListObjectsV2Output),
        (p.Contents.length : Int) ≤ p.KeyCount) ∧
      GetS3Keys (([⟨[], [⟨some (lit "k1")⟩], 3⟩, ⟨[], [], 0⟩,
        ⟨[], [⟨some (lit "k2")⟩, ⟨some (lit "k3")⟩], 2⟩] : List ListObjectsV2Output).map
          Except.ok) =
        ⟨Outcome.returned ([lit "k1", lit "", lit "", lit "k2", lit "k3"], none), 3⟩ :=
  ⟨by decide, by decide,
    ((GetS3Keys_batches_sized_by_KeyCount _ (by decide)).1 (by decide)).1⟩

/-! ## S3 Select -/

/-- C5: when the acquired stream delivers `events` and closes with no terminal error,
`S3Select` returns nil and standard output grows by exactly the concatenation, in
arrival order, of the payloads of the `Records` events; a stream without `Records`
events writes nothing.  For the three `Records` payloads `{"a":1}\n`, `{"a":2}\n` and
the empty one, the output is the two non-empty payloads in order and the result nil. -/
theorem S3Select_emits_record_payloads
    (client : SelectObjectContentInput → Except GoError SelectObjectContentEventStream)
    (w : World) (bucket key query : GoString) (events : List Event)
    (h : client (S3Select.params bucket key query) = Except.ok ⟨events, none⟩) :
    (S3Select client w bucket key query).2 = none ∧
    (S3Select client w bucket key query).1.stdout =
      w.stdout ++ (recordPayloads events).flatten ∧
    ((∀ ev ∈ events, ∀ payload, ev ≠ Event.Records payload) →
      (S3Select client w bucket key query).1.stdout = w.stdout) ∧
    S3Select (fun _ => Except.ok ⟨[Event.Records (lit "\x7b\"a\":1\x7d\n"),
        Event.Records (lit "\x7b\"a\":2\x7d\n"), Event.Records (lit "")], none⟩)
      ⟨[], 0, []⟩ (lit "b") (lit "k") (lit "q") =
      (⟨lit "\x7b\"a\":1\x7d\n" ++ lit "\x7b\"a\":2\x7d\n", 1,
        [S3Select.params (lit "b") (lit "k") (lit "q")]⟩, none) := by
  have hout : (S3Select client w bucket key query).1.stdout =
      w.stdout ++ (recordPayloads events).flatten := by
    simp [S3Select, h, streamClose, S3Select_drain_stdout]
  refine ⟨by simp [S3Select, h], hout, ?_, by decide⟩
  intro hno
  rw [hout, recordPayloads_no_records events hno]
  simp

theorem S3Select_emits_record_payloads_witness :
    (fun _ => Except.ok ⟨[Event.Records (lit "x"), Event.Progress, Event.Records (lit "y"),
        Event.Stats, Event.Cont, Event.End], none⟩ :
        SelectObjectContentInput → Except GoError SelectObjectContentEventStream)
      (S3Select.params (lit "b") (lit "k.gz") (lit "q")) =
      Except.ok ⟨[Event.Records (lit "x"), Event.Progress, Event.Records (lit "y"),
        Event.Stats, Event.Cont, Event.End], none⟩ ∧
    (S3Select (fun _ => Except.ok ⟨[Event.Records (lit "x"), Event.Progress,
        Event.Records (lit "y"), Event.Stats, Event.Cont, Event.End], none⟩)
      ⟨lit "old", 0, []⟩ (lit "b") (lit "k.gz") (lit "q")).1.stdout =
      lit "old" ++ [lit "x", lit "y"].flatten :=
  ⟨rfl, (S3Select_emits_record_payloads
    (fun _ => Except.ok ⟨[Event.Records (lit "x"), Event.Progress, Event.Records (lit "y"),
        Event.Stats, Event.Cont, Event.End], none⟩)
    ⟨lit "old", 0, []⟩ (lit "b") (lit "k.gz") (lit "q") _ rfl).2.1⟩

/-- C6: when the acquired stream delivers `events` and its terminal error is `err` once
the channel has closed, `S3Select` returns `err`, and standard output has nevertheless
grown by the concatenation, in order, of every `Records` payload delivered.  With one
`Records` event followed by a transport error, that payload is written and the result
is the error. -/
theorem S3Select_stream_error_keeps_output
    (client : SelectObjectContentInput → Except GoError SelectObjectContentEventStream)
    (w : World) (bucket key query : GoString) (events : List Event) (err : GoError)
    (h : client (S3Select.params bucket key query) = Except.ok ⟨events, some err⟩) :
    (S3Select client w bucket key query).2 = some err ∧
    (S3Select client w bucket key query).1.stdout =
      w.stdout ++ (recordPayloads events).flatten ∧
    S3Select (fun _ => Except.ok ⟨[Event.Records (lit "r1\n")], some ⟨"connection reset"⟩⟩)
      ⟨[], 0, []⟩ (lit "b") (lit "k") (lit "q") =
      (⟨lit "r1\n", 1, [S3Select.params (lit "b") (lit "k") (lit "q")]⟩,
        some ⟨"connection reset"⟩) := by
  refine ⟨by simp [S3Select, h], ?_, by decide⟩
  simp [S3Select, h, streamClose, S3Select_drain_stdout]

theorem S3Select_stream_error_keeps_output_witness :
    (fun _ => Except.ok ⟨[Event.Records (lit "r1"), Event.Progress, Event.Records (lit "r2")],
        some ⟨"connection reset"⟩⟩ :
        SelectObjectContentInput → Except GoError SelectObjectContentEventStream)
      (S3Select.params (lit "b") (lit "k") (lit "q")) =
      Except.ok ⟨[Event.Records (lit "r1"), Event.Progress, Event.Records (lit "r2")],
        some ⟨"connection reset"⟩⟩ ∧
    (S3Select (fun _ => Except.ok ⟨[Event.Records (lit "r1"), Event.Progress,
        Event.Records (lit "r2")], some ⟨"connection reset"⟩⟩)
      ⟨[], 0, []⟩ (lit "b") (lit "k") (lit "q")).2 = some ⟨"connection reset"⟩ :=
  ⟨rfl, (S3Select_stream_error_keeps_output
    (fun _ => Except.ok ⟨[Event.Records (lit "r1"), Event.Progress, Event.Records (lit "r2")],
        some ⟨"connection reset"⟩⟩)
    ⟨[], 0, []⟩ (lit "b") (lit "k") (lit "q") _ ⟨"connection reset"⟩ rfl).1⟩

/-- C7, as stated, fails: the request built for bucket `b`, key `k.gz` and query `q`
carries a `RequestProgress` whose `Enabled` is false, so no `RequestProgress` with
`Enabled = true` is submitted. -/
theorem S3Select_request_progress_enabled_fails :
    (S3Select.params (lit "b") (lit "k.gz") (lit "q")).RequestProgress = some ⟨false⟩ ∧
    ¬ (∃ rp, (S3Select.params (lit "b") (lit "k.gz") (lit "q")).RequestProgress = some rp ∧
        rp.Enabled = true) ∧
    (S3Select (fun _ => Except.ok ⟨[], none⟩) ⟨[], 0, []⟩
        (lit "b") (lit "k.gz") (lit "q")).1.submitted.map (fun r => r.RequestProgress) =
      [some ⟨false⟩] := by
  refine ⟨by decide, ?_, by decide⟩
  rintro ⟨rp, h1, h2⟩
  have h0 : (S3Select.params (lit "b") (lit "k.gz") (lit "q")).RequestProgress =
      some ⟨false⟩ := by decide
  rw [h0] at h1
  injection h1 with h1
  subst h1
  cases h2

/-- C7, amended: the one request `S3Select` submits for any (bucket, key, query) is
`S3Select.params`; it carries a `RequestProgress` setting whose `Enabled` is left at
its zero value false, JSON-Lines input framing, the compression hint
`suggestCompressionType key` and JSON output framing. -/
theorem S3Select_request_shape
    (client : SelectObjectContentInput → Except GoError SelectObjectContentEventStream)
    (w : World) (bucket key query : GoString) :
    (S3Select client w bucket key query).1.submitted =
      w.submitted ++ [S3Select.params bucket key query] ∧
    (S3Select.params bucket key query).RequestProgress = some ⟨false⟩ ∧
    (S3Select.params bucket key query).InputSerialization =
      some ⟨suggestCompressionType key, some ⟨JSONType.JSONTypeLines⟩⟩ ∧
    (S3Select.params bucket key query).OutputSerialization = some ⟨some ⟨none⟩⟩ ∧
    (S3Select.params bucket key query).Bucket = some bucket ∧
    (S3Select.params bucket key query).Key = some key ∧
    (S3Select.params bucket key query).Expression = some query := by
  refine ⟨?_, rfl, rfl, rfl, rfl, rfl, rfl⟩
  have hd : ∀ (events : List Event) (v : World),
      (S3Select.drain events v).submitted = v.submitted := by
    intro events
    induction events with
    | nil => intro v; simp [S3Select.drain]
    | cons ev events ih => intro v; cases ev <;> simp [S3Select.drain, ih, fmtPrint]
  cases hc : client (S3Select.params bucket key query) with
  | error e => simp [S3Select, hc]
  | ok stream => cases hs : stream.Err <;> simp [S3Select, hc, hs, streamClose, hd]

/-- C9, as stated, fails: when the request submission fails, `S3Select` returns the
error and `Close` has been invoked zero times, not once. -/
theorem S3Select_close_once_fails_on_rejected_request :
    S3Select (fun _ => Except.error ⟨"NoSuchKey"⟩) ⟨[], 0, []⟩ (lit "b") (lit "k") (lit "q") =
      (⟨[], 0, [S3Select.params (lit "b") (lit "k") (lit "q")]⟩, some ⟨"NoSuchKey"⟩) ∧
    (S3Select (fun _ => Except.error ⟨"NoSuchKey"⟩) ⟨[], 0, []⟩
      (lit "b") (lit "k") (lit "q")).1.closeCalls ≠ 1 := by
  decide

/-- C9, amended: on every path on which a stream was acquired (the drain ends with or
without a terminal stream error) `Close` has been invoked exactly once when `S3Select`
returns; when the request submission fails no stream exists, `Close` is not invoked
and the submission error is returned. -/
theorem S3Select_closes_acquired_stream_once
    (client : SelectObjectContentInput → Except GoError SelectObjectContentEventStream)
    (w : World) (bucket key query : GoString) :
    (∀ stream, client (S3Select.params bucket key query) = Except.ok stream →
      (S3Select client w bucket key query).1.closeCalls = w.closeCalls + 1 ∧
      (S3Select client w bucket key query).2 = stream.Err) ∧
    (∀ err, client (S3Select.params bucket key query) = Except.error err →
      (S3Select client w bucket key query).1.closeCalls = w.closeCalls ∧
      (S3Select client w bucket key query).2 = some err) := by
  constructor
  · intro stream h
    unfold S3Select
    cases hs : stream.Err <;> simp [h, hs, streamClose, S3Select_drain_closeCalls]
  · intro err h
    simp [S3Select, h]

theorem S3Select_closes_acquired_stream_once_witness :
    (fun _ => Except.ok ⟨[Event.Records (lit "r1"), Event.End], none⟩ :
        SelectObjectContentInput → Except GoError SelectObjectContentEventStream)
      (S3Select.params (lit "b") (lit "k") (lit "q")) =
      Except.ok ⟨[Event.Records (lit "r1"), Event.End], none⟩ ∧
    (S3Select (fun _ => Except.ok ⟨[Event.Records (lit "r1"), Event.End], none⟩)
      ⟨[], 0, []⟩ (lit "b") (lit "k") (lit "q")).1.closeCalls = 0 + 1 :=
  ⟨rfl, ((S3Select_closes_acquired_stream_once
    (fun _ => Except.ok ⟨[Event.Records (lit "r1"), Event.End], none⟩)
    ⟨[], 0, []⟩ (lit "b") (lit "k") (lit "q")).1 _ rfl).1⟩

end S3s
